import Mathlib

/-
Verification of the PromptForge prompt-optimization engine
(`src/prompt_optimizer.py` and `src/utils/llms.py`) against its
natural-language specification.

The Python code is shallowly embedded:
  * Python `str` values are embedded as `List Char` (`Str`); the ASCII
    fragment of Python case folding (`str.lower` / `str.upper`) and of
    Python whitespace stripping (`str.strip`, regex `\s`) is modelled,
    which is the fragment the code exercises;
  * Python exceptions are embedded by their message text (`str(e)`), so a
    fallible call returns `Except Str Str`;
  * the LLM transport (`utils/llms.py: get_llm_response`) is embedded as a
    function from a routed `Call` (message, channel, model) to an
    `Except`-result, indexed by retry attempt; the embedding additionally
    records the list of transport calls made and the sleep delays
    requested, so that retry/backoff behaviour becomes a statement about
    data;
  * the prompt templates live in an external `prompts/prompts.yml` file
    (not part of the repository's source), so a rendered template is
    embedded as an abstract function of its named placeholder values
    (`Prompts` structure); `str.format` binding a fixed template is
    exactly such a function;
  * real time, printing and thread scheduling are not modelled; the only
    scheduling-visible effect, the arbitrary completion order of
    `as_completed` within a batch of `ThreadPoolExecutor` futures, is
    modelled by quantifying over a per-batch permutation of the cases.
-/

namespace PromptForge

/-- Python `str` embedded as a list of characters. -/
abbrev Str := List Char

/-- ASCII whitespace, as recognised by Python `str.strip()` and by the
regex class `\s` on ASCII text: space, tab, newline, carriage return,
vertical tab, form feed. -/
def isSpace (c : Char) : Bool :=
  c.toNat = 32 || c.toNat = 9 || c.toNat = 10 || c.toNat = 13 || c.toNat = 11 || c.toNat = 12

/-- Python `str.lower` on one character (ASCII fragment): map `A`–`Z` to
`a`–`z`, leave everything else unchanged. -/
def lowerChar (c : Char) : Char :=
  if 65 ≤ c.toNat ∧ c.toNat ≤ 90 then Char.ofNat (c.toNat + 32) else c

/-- Python `str.upper` on one character (ASCII fragment): map `a`–`z` to
`A`–`Z`, leave everything else unchanged. -/
def upperChar (c : Char) : Char :=
  if 97 ≤ c.toNat ∧ c.toNat ≤ 122 then Char.ofNat (c.toNat - 32) else c

/-- Python `str.lower` on a string (ASCII fragment). -/
def lowerStr (s : Str) : Str := s.map lowerChar

/-- Python `str.upper` on a string (ASCII fragment). -/
def upperStr (s : Str) : Str := s.map upperChar

/-- Python `str.strip()`: drop leading and trailing whitespace. -/
def strip (s : Str) : Str :=
  ((s.dropWhile isSpace).reverse.dropWhile isSpace).reverse

/-- `PromptOptimizer.check_output_match`: trimmed, case-folded equality
(`actual_output.strip().lower() == expected_output.strip().lower()`). -/
def check_output_match (actual_output expected_output : Str) : Bool :=
  lowerStr (strip actual_output) = lowerStr (strip expected_output)

theorem toNat_ofNat_valid {n : Nat} (h : n < 55296) : (Char.ofNat n).toNat = n := by
  rw [Char.ofNat, dif_pos (Or.inl h)]
  simp [Char.ofNatAux, Char.toNat, UInt32.toNat]

theorem lowerChar_upperChar (c : Char) : lowerChar (upperChar c) = lowerChar c := by
  unfold lowerChar upperChar
  by_cases h : 97 ≤ c.toNat ∧ c.toNat ≤ 122
  · rw [if_pos h]
    have hv : (Char.ofNat (c.toNat - 32)).toNat = c.toNat - 32 :=
      toNat_ofNat_valid (by omega)
    rw [if_pos (by rw [hv]; omega), hv]
    have h32 : c.toNat - 32 + 32 = c.toNat := by omega
    rw [h32, Char.ofNat_toNat, if_neg (by omega)]
  · rw [if_neg h]

theorem isSpace_upperChar (c : Char) : isSpace (upperChar c) = isSpace c := by
  unfold upperChar
  by_cases h : 97 ≤ c.toNat ∧ c.toNat ≤ 122
  · rw [if_pos h]
    have hv : (Char.ofNat (c.toNat - 32)).toNat = c.toNat - 32 :=
      toNat_ofNat_valid (by omega)
    rw [Bool.eq_iff_iff]
    simp only [isSpace, Bool.or_eq_true, decide_eq_true_eq, hv]
    omega
  · rw [if_neg h]

theorem strip_upperStr (s : Str) : strip (upperStr s) = upperStr (strip s) := by
  have hc : (isSpace ∘ upperChar) = isSpace := funext isSpace_upperChar
  unfold strip upperStr
  simp only [List.dropWhile_map, ← List.map_reverse, hc]

theorem lowerStr_upperStr (s : Str) : lowerStr (upperStr s) = lowerStr s := by
  unfold lowerStr upperStr
  rw [List.map_map]
  exact List.map_congr_left fun c _ => lowerChar_upperChar c

/-- Claim C5: output matching is exactly case-insensitive, whitespace-trimmed
equality: `check_output_match a a.upper()` holds for every string `a`,
`check_output_match " a " "a"` holds, `check_output_match "a" "b"` fails, and
matching holds precisely when the trimmed, case-folded strings are equal (no
fuzzy or semantic matching). -/
theorem check_output_match_spec :
    (∀ a : Str, check_output_match a (upperStr a) = true) ∧
    check_output_match " a ".toList "a".toList = true ∧
    check_output_match "a".toList "b".toList = false ∧
    ∀ a b : Str, check_output_match a b = true ↔ lowerStr (strip a) = lowerStr (strip b) := by
  refine ⟨fun a => ?_, by decide, by decide, fun a b => by simp [check_output_match]⟩
  simp only [check_output_match, strip_upperStr, lowerStr_upperStr, decide_eq_true_eq]

/-- Consume a case-insensitive occurrence of `pat` from the front of `s`
(the literal-token part of matching `re.IGNORECASE` patterns): on success
return the remainder of `s`. -/
def chopCI : Str → Str → Option Str
  | [], s => some s
  | _ :: _, [] => none
  | p :: ps, c :: cs => if lowerChar p = lowerChar c then chopCI ps cs else none

/-- Consume a maximal run of whitespace (the regex `\s*`). -/
def skipWs (s : Str) : Str := s.dropWhile isSpace

def startTok : Str := "START".toList

def openTok : Str := "<prompt>".toList

def closeTok : Str := "</prompt>".toList

def endTok : Str := "END".toList

/-- Search, from the current position, for the earliest occurrence of
`</prompt>` that is followed by `\s*END`; return the text before it.  This
is the behaviour of the lazy group in
`re.search(r"START\s*<prompt>\s*(.*?)\s*</prompt>\s*END", response,
re.DOTALL | re.IGNORECASE)` once the opening half has matched: the lazy
`(.*?)` extends one character at a time, so the first viable closing pair
wins.  The `\s*` on either side of the group only moves whitespace in or
out of the group, which the final `.strip()` erases, so it is dropped here
and `strip` is applied to the returned interior. -/
def findCloser : Str → Option Str
  | [] => none
  | c :: rest =>
    match chopCI closeTok (c :: rest) with
    | some r =>
      if (chopCI endTok (skipWs r)).isSome then some []
      else (findCloser rest).map (List.cons c)
    | none => (findCloser rest).map (List.cons c)

/-- The `re.search` scan: try each start position from the left; at the
first position where `START\s*<prompt>` matches and a closing
`</prompt>\s*END` exists later, return the interior.  Backtracking when no
closer exists moves the match start one character to the right, exactly as
`re.search` does. -/
def findSpan : Str → Option Str
  | [] => none
  | c :: rest =>
    match chopCI startTok (c :: rest) with
    | some r1 =>
      match chopCI openTok (skipWs r1) with
      | some r2 =>
        match findCloser r2 with
        | some interior => some interior
        | none => findSpan rest
      | none => findSpan rest
    | none => findSpan rest

/-- `PromptOptimizer._extract_prompt_from_response`: return the trimmed
interior of the first `START <prompt> ... </prompt> END` span, or the whole
trimmed response when no span matches. -/
def extract_prompt_from_response (response : Str) : Str :=
  match findSpan response with
  | some interior => strip interior
  | none => strip response

/-- Case-insensitive equality of strings (ASCII fragment), the sense in
which a slice of the response matches a literal marker token under
`re.IGNORECASE`. -/
def ciEq (a b : Str) : Prop := a.map lowerChar = b.map lowerChar

/-- A string consisting of whitespace only (matched by the regex `\s*`). -/
def wsRun (w : Str) : Prop := ∀ c ∈ w, isSpace c = true

/-- Declarative reading of the marker pattern: `r` contains (somewhere) a
case-insensitive `START`, optional whitespace, `<prompt>`, the given
interior, `</prompt>`, optional whitespace, `END`. -/
def SpanAt (r interior : Str) : Prop :=
  ∃ u st w1 op cl w2 en v,
    r = u ++ st ++ w1 ++ op ++ interior ++ cl ++ w2 ++ en ++ v ∧
    ciEq st startTok ∧ wsRun w1 ∧ ciEq op openTok ∧
    ciEq cl closeTok ∧ wsRun w2 ∧ ciEq en endTok

/-- `r` contains some marker span. -/
def HasSpan (r : Str) : Prop := ∃ interior, SpanAt r interior

theorem chopCI_sound : ∀ pat s rest, chopCI pat s = some rest →
    ∃ p, s = p ++ rest ∧ ciEq p pat
  | [], s, rest, h => by
    simp only [chopCI, Option.some.injEq] at h
    exact ⟨[], by simp [h], by simp [ciEq]⟩
  | p :: ps, [], rest, h => by simp [chopCI] at h
  | p :: ps, c :: cs, rest, h => by
    by_cases hpc : lowerChar p = lowerChar c
    · rw [chopCI, if_pos hpc] at h
      obtain ⟨q, hq, hci⟩ := chopCI_sound ps cs rest h
      refine ⟨c :: q, by simp [hq], ?_⟩
      simp only [ciEq, List.map_cons, List.cons.injEq]
      exact ⟨hpc.symm, hci⟩
    · rw [chopCI, if_neg hpc] at h
      exact absurd h (by simp)

theorem chopCI_complete : ∀ pat p rest, ciEq p pat →
    chopCI pat (p ++ rest) = some rest
  | [], p, rest, h => by
    have : p = [] := by simpa [ciEq] using h
    simp [this, chopCI]
  | a :: as, p, rest, h => by
    match p with
    | [] => simp [ciEq] at h
    | c :: cs =>
      simp only [ciEq, List.map_cons, List.cons.injEq] at h
      simp only [List.cons_append, chopCI, if_pos h.1.symm]
      exact chopCI_complete as cs rest h.2

theorem skipWs_decomp (s : Str) :
    ∃ w, s = w ++ skipWs s ∧ wsRun w := by
  refine ⟨s.takeWhile isSpace, (List.takeWhile_append_dropWhile isSpace s).symm, ?_⟩
  intro c hc
  exact List.mem_takeWhile_imp hc

theorem skipWs_complete : ∀ w h t, wsRun w → isSpace h = false →
    skipWs (w ++ h :: t) = h :: t
  | [], h, t, _, hh => by simp [skipWs, List.dropWhile_cons, hh]
  | a :: as, h, t, hw, hh => by
    have ha : isSpace a = true := hw a (by simp)
    simp only [List.cons_append, skipWs, List.dropWhile_cons, ha, if_pos]
    exact skipWs_complete as h t (fun c hc => hw c (by simp [hc])) hh

theorem isSpace_eq_false_of_lower {h d : Char} (hl : lowerChar h = d)
    (hd : isSpace d = false) : isSpace h = false := by
  unfold lowerChar at hl
  by_cases hc : 65 ≤ h.toNat ∧ h.toNat ≤ 90
  · obtain ⟨h1, h2⟩ := hc
    rw [Bool.eq_false_iff]
    intro hs
    simp only [isSpace, Bool.or_eq_true, decide_eq_true_eq] at hs
    omega
  · rw [if_neg hc] at hl
    rwa [hl]

instance (a b : Str) : Decidable (ciEq a b) :=
  inferInstanceAs (Decidable (a.map lowerChar = b.map lowerChar))

instance (w : Str) : Decidable (wsRun w) :=
  inferInstanceAs (Decidable (∀ c ∈ w, isSpace c = true))

theorem ciEq_head_not_space {a : Str} {d : Char} {b : Str}
    (h : ciEq a (d :: b)) (hd : isSpace (lowerChar d) = false) :
    ∃ c cs, a = c :: cs ∧ isSpace c = false := by
  match a with
  | [] => simp [ciEq] at h
  | c :: cs =>
    simp only [ciEq, List.map_cons, List.cons.injEq] at h
    exact ⟨c, cs, rfl, isSpace_eq_false_of_lower h.1 hd⟩

theorem findCloser_sound : ∀ s interior, findCloser s = some interior →
    ∃ cl w2 en v, s = interior ++ cl ++ w2 ++ en ++ v ∧
      ciEq cl closeTok ∧ wsRun w2 ∧ ciEq en endTok
  | [], interior, h => by simp [findCloser] at h
  | c :: rest, interior, h => by
    rcases hm : chopCI closeTok (c :: rest) with _ | r
    · simp only [findCloser, hm, Option.map_eq_some'] at h
      obtain ⟨i, hi, rfl⟩ := h
      obtain ⟨cl, w2, en, v, heq, h1, h2, h3⟩ := findCloser_sound rest i hi
      exact ⟨cl, w2, en, v, by simp [heq], h1, h2, h3⟩
    · simp only [findCloser, hm] at h
      by_cases hE : (chopCI endTok (skipWs r)).isSome
      · rw [if_pos hE] at h
        obtain rfl : ([] : Str) = interior := by simpa using h
        obtain ⟨cl, hcl, hciCl⟩ := chopCI_sound closeTok (c :: rest) r hm
        obtain ⟨w2, hw2eq, hw2⟩ := skipWs_decomp r
        obtain ⟨v, hv⟩ := Option.isSome_iff_exists.mp hE
        obtain ⟨en, hen, hciEn⟩ := chopCI_sound endTok (skipWs r) v hv
        refine ⟨cl, w2, en, v, ?_, hciCl, hw2, hciEn⟩
        rw [List.nil_append, hcl, hw2eq, hen]
        simp [List.append_assoc]
      · rw [if_neg hE, Option.map_eq_some'] at h
        obtain ⟨i, hi, rfl⟩ := h
        obtain ⟨cl, w2, en, v, heq, h1, h2, h3⟩ := findCloser_sound rest i hi
        exact ⟨cl, w2, en, v, by simp [heq], h1, h2, h3⟩

theorem findCloser_isSome : ∀ (a cl w2 en v : Str),
    ciEq cl closeTok → wsRun w2 → ciEq en endTok →
    (findCloser (a ++ cl ++ w2 ++ en ++ v)).isSome = true
  | [], cl, w2, en, v, hcl, hw2, hen => by
    obtain ⟨e0, et, rfl, he0⟩ :=
      ciEq_head_not_space (b := "ND".toList) (by simpa [endTok] using hen) (by decide)
    obtain ⟨c0, cs0, rfl, _⟩ :=
      ciEq_head_not_space (b := "/prompt>".toList) (by simpa [closeTok] using hcl) (by decide)
    have hch : chopCI closeTok ((c0 :: cs0) ++ (w2 ++ (e0 :: et) ++ v)) = some (w2 ++ (e0 :: et) ++ v) :=
      chopCI_complete closeTok (c0 :: cs0) _ hcl
    have hskip : skipWs (w2 ++ (e0 :: et) ++ v) = (e0 :: et) ++ v := by
      rw [List.append_assoc, List.cons_append]
      exact skipWs_complete w2 e0 (et ++ v) hw2 he0
    have hend : chopCI endTok ((e0 :: et) ++ v) = some v :=
      chopCI_complete endTok (e0 :: et) v hen
    have hE : (chopCI endTok (skipWs (w2 ++ (e0 :: et) ++ v))).isSome = true := by
      rw [hskip, hend]; rfl
    simp only [List.nil_append, List.cons_append, List.append_assoc] at hch ⊢
    simp only [findCloser, hch]
    rw [if_pos (by simpa [List.append_assoc] using hE)]
    rfl
  | c :: a, cl, w2, en, v, hcl, hw2, hen => by
    have IH := findCloser_isSome a cl w2 en v hcl hw2 hen
    rcases hm : chopCI closeTok ((c :: a) ++ cl ++ w2 ++ en ++ v) with _ | r
    · simp only [List.cons_append, List.append_assoc] at hm ⊢
      simp only [findCloser, hm, Option.isSome_map']
      simpa [List.append_assoc] using IH
    · simp only [List.cons_append, List.append_assoc] at hm ⊢
      by_cases hE : (chopCI endTok (skipWs r)).isSome
      · simp only [findCloser, hm]
        rw [if_pos hE]
        rfl
      · simp only [findCloser, hm]
        rw [if_neg hE]
        simp only [Option.isSome_map']
        simpa [List.append_assoc] using IH

theorem SpanAt_cons {r i : Str} (c : Char) (h : SpanAt r i) : SpanAt (c :: r) i := by
  obtain ⟨u, st, w1, op, cl, w2, en, v, heq, h1, h2, h3, h4, h5, h6⟩ := h
  exact ⟨c :: u, st, w1, op, cl, w2, en, v, by simp [heq], h1, h2, h3, h4, h5, h6⟩

theorem findSpan_sound : ∀ s intr, findSpan s = some intr → SpanAt s intr
  | [], intr, h => by simp [findSpan] at h
  | c :: rest, intr, h => by
    rcases hm1 : chopCI startTok (c :: rest) with _ | r1
    · simp only [findSpan, hm1] at h
      exact SpanAt_cons c (findSpan_sound rest intr h)
    · rcases hm2 : chopCI openTok (skipWs r1) with _ | r2
      · simp only [findSpan, hm1, hm2] at h
        exact SpanAt_cons c (findSpan_sound rest intr h)
      · rcases hm3 : findCloser r2 with _ | i
        · simp only [findSpan, hm1, hm2, hm3] at h
          exact SpanAt_cons c (findSpan_sound rest intr h)
        · simp only [findSpan, hm1, hm2, hm3, Option.some.injEq] at h
          subst h
          obtain ⟨st, hst, hciSt⟩ := chopCI_sound startTok (c :: rest) r1 hm1
          obtain ⟨w1, hw1eq, hw1⟩ := skipWs_decomp r1
          obtain ⟨op, hop, hciOp⟩ := chopCI_sound openTok (skipWs r1) r2 hm2
          obtain ⟨cl, w2, en, v, hcl, hciCl, hw2, hciEn⟩ := findCloser_sound r2 i hm3
          refine ⟨[], st, w1, op, cl, w2, en, v, ?_, hciSt, hw1, hciOp, hciCl, hw2, hciEn⟩
          rw [List.nil_append, hst, hw1eq, hop, hcl]
          simp [List.append_assoc]

theorem findSpan_isSome_aux : ∀ (u st w1 op i cl w2 en v : Str),
    ciEq st startTok → wsRun w1 → ciEq op openTok →
    ciEq cl closeTok → wsRun w2 → ciEq en endTok →
    (findSpan (u ++ st ++ w1 ++ op ++ i ++ cl ++ w2 ++ en ++ v)).isSome = true
  | [], st, w1, op, i, cl, w2, en, v, hst, hw1, hop, hcl, hw2, hen => by
    obtain ⟨s0, ss, rfl, _⟩ :=
      ciEq_head_not_space (b := "TART".toList) (by simpa [startTok] using hst) (by decide)
    obtain ⟨o0, os, rfl, ho0⟩ :=
      ciEq_head_not_space (b := "prompt>".toList) (by simpa [openTok] using hop) (by decide)
    have hch1 : chopCI startTok ((s0 :: ss) ++ (w1 ++ (o0 :: os) ++ (i ++ cl ++ w2 ++ en ++ v)))
        = some (w1 ++ (o0 :: os) ++ (i ++ cl ++ w2 ++ en ++ v)) :=
      chopCI_complete startTok (s0 :: ss) _ hst
    have hskip : skipWs (w1 ++ (o0 :: os) ++ (i ++ cl ++ w2 ++ en ++ v))
        = (o0 :: os) ++ (i ++ cl ++ w2 ++ en ++ v) := by
      rw [List.append_assoc, List.cons_append]
      exact skipWs_complete w1 o0 (os ++ (i ++ cl ++ w2 ++ en ++ v)) hw1 ho0
    have hch2 : chopCI openTok ((o0 :: os) ++ (i ++ cl ++ w2 ++ en ++ v))
        = some (i ++ cl ++ w2 ++ en ++ v) :=
      chopCI_complete openTok (o0 :: os) _ hop
    have hclo : (findCloser (i ++ cl ++ w2 ++ en ++ v)).isSome = true :=
      findCloser_isSome i cl w2 en v hcl hw2 hen
    obtain ⟨i2, hi2⟩ := Option.isSome_iff_exists.mp hclo
    simp only [List.nil_append, List.cons_append, List.append_assoc] at hch1 hskip hch2 hi2 ⊢
    simp only [findSpan, hch1, hskip, hch2, hi2]
    rfl
  | c :: u, st, w1, op, i, cl, w2, en, v, hst, hw1, hop, hcl, hw2, hen => by
    have IH := findSpan_isSome_aux u st w1 op i cl w2 en v hst hw1 hop hcl hw2 hen
    rcases hm1 : chopCI startTok ((c :: u) ++ st ++ w1 ++ op ++ i ++ cl ++ w2 ++ en ++ v) with _ | r1
    · simp only [List.cons_append, List.append_assoc] at hm1 ⊢
      simp only [findSpan, hm1]
      simpa [List.append_assoc] using IH
    · simp only [List.cons_append, List.append_assoc] at hm1 ⊢
      rcases hm2 : chopCI openTok (skipWs r1) with _ | r2
      · simp only [findSpan, hm1, hm2]
        simpa [List.append_assoc] using IH
      · rcases hm3 : findCloser r2 with _ | i2
        · simp only [findSpan, hm1, hm2, hm3]
          simpa [List.append_assoc] using IH
        · simp only [findSpan, hm1, hm2, hm3]
          rfl

theorem findSpan_isSome_of_hasSpan {r : Str} (h : HasSpan r) :
    (findSpan r).isSome = true := by
  obtain ⟨i, u, st, w1, op, cl, w2, en, v, heq, h1, h2, h3, h4, h5, h6⟩ := h
  rw [heq]
  exact findSpan_isSome_aux u st w1 op i cl w2 en v h1 h2 h3 h4 h5 h6

/-- Claim C9: prompt extraction returns the trimmed interior of a
case-insensitive, multi-line `START <prompt> ... </prompt> END` marker span
when one exists, and otherwise returns the entire trimmed response verbatim
(graceful degradation, never an error). -/
theorem extract_prompt_spec (r : Str) :
    (¬ HasSpan r → extract_prompt_from_response r = strip r) ∧
    (HasSpan r → ∃ interior, SpanAt r interior ∧
      extract_prompt_from_response r = strip interior) := by
  constructor
  · intro h
    rcases hf : findSpan r with _ | i
    · simp only [extract_prompt_from_response, hf]
    · exact absurd ⟨i, findSpan_sound r i hf⟩ h
  · intro h
    obtain ⟨i, hf⟩ := Option.isSome_iff_exists.mp (findSpan_isSome_of_hasSpan h)
    exact ⟨i, findSpan_sound r i hf, by simp only [extract_prompt_from_response, hf]⟩

/-- Witness for C9: a response without markers is returned whole (trimmed);
a response with markers yields the trimmed interior of a span. -/
theorem extract_prompt_spec_witness :
    extract_prompt_from_response "hello".toList = strip "hello".toList ∧
    (∃ interior, SpanAt "xxSTART <prompt> abc </prompt> ENDyy".toList interior ∧
      extract_prompt_from_response "xxSTART <prompt> abc </prompt> ENDyy".toList
        = strip interior) := by
  constructor
  · refine (extract_prompt_spec _).1 ?_
    intro h
    have hs := findSpan_isSome_of_hasSpan h
    rw [show findSpan "hello".toList = none by decide] at hs
    exact absurd hs (by decide)
  · exact (extract_prompt_spec _).2
      ⟨" abc ".toList, "xx".toList, "START".toList, " ".toList, "<prompt>".toList,
        "</prompt>".toList, " ".toList, "END".toList, "yy".toList, by decide⟩

/-- One routed transport call: the rendered message, the provider channel
after routing in `get_llm_response` (the branch taken: claude or gpt), and
the concrete model name used. -/
structure Call where
  message : Str
  channel : Str
  model : Str
deriving DecidableEq

/-- A failing test case as the Python code carries it:
`(input_data, expected_output, actual_output)`. -/
abbrev FailedCase := Str × Str × Str

instance {ε α : Type} [DecidableEq ε] [DecidableEq α] : DecidableEq (Except ε α)
  | Except.ok a, Except.ok b =>
    if h : a = b then isTrue (by rw [h])
    else isFalse (fun hh => h (Except.ok.inj hh))
  | Except.error a, Except.error b =>
    if h : a = b then isTrue (by rw [h])
    else isFalse (fun hh => h (Except.error.inj hh))
  | Except.ok _, Except.error _ => isFalse (fun hh => Except.noConfusion hh)
  | Except.error _, Except.ok _ => isFalse (fun hh => Except.noConfusion hh)

/-- `utils/llms.py: get_llm_response(message, llm_type, model)`: lower-case
the provider tag; route `claude` to the Anthropic channel (default model
`claude-sonnet-4-5-20250929` when none is given), `gpt`/`openai` to the
OpenAI channel (default `gpt-4`), and raise `ValueError` otherwise.  The
transport behaviour itself (network, API keys) is the parameter `resp`;
the result also reports the calls that reached the transport. -/
def get_llm_response (resp : Call → Except Str Str) (message llm_type : Str)
    (model : Option Str) : Except Str Str × List Call :=
  if lowerStr llm_type = "claude".toList then
    (resp ⟨message, "claude".toList, model.getD "claude-sonnet-4-5-20250929".toList⟩,
      [⟨message, "claude".toList, model.getD "claude-sonnet-4-5-20250929".toList⟩])
  else if lowerStr llm_type = "gpt".toList ∨ lowerStr llm_type = "openai".toList then
    (resp ⟨message, "gpt".toList, model.getD "gpt-4".toList⟩,
      [⟨message, "gpt".toList, model.getD "gpt-4".toList⟩])
  else
    (Except.error ("Unsupported LLM type: ".toList ++ llm_type), [])

/-- Per-stage model configuration (`config['models'][stage]`). -/
structure ModelCfg where
  provider : Str
  model : Str
deriving DecidableEq

/-- The retry-relevant slice of `config['performance']`. -/
structure RetryCfg where
  max_retries : Nat
  retry_delay : Rat
  exponential_backoff : Bool

/-- The configuration consumed by `PromptOptimizer._call_llm`. -/
structure Config where
  models : Str → Option ModelCfg
  perf : RetryCfg

/-- Result of one `_call_llm`-style invocation: the returned (or raised)
value, how many attempts were made, which transport calls were issued, and
which sleep delays were requested between attempts. -/
structure CallOut where
  result : Except Str Str
  attempts : Nat
  calls : List Call
  delays : List Rat

/-- `PromptOptimizer._get_model_config`: stage lookup with the documented
default. -/
def model_config_of (cfg : Config) (stage : Str) : ModelCfg :=
  (cfg.models stage).getD ⟨"claude".toList, "claude-3-5-sonnet-20241022".toList⟩

/-- The delay slept after a failed attempt `a`:
`retry_delay * (2 ** attempt if exponential_backoff else 1)`. -/
def delay_of (p : RetryCfg) (a : Nat) : Rat :=
  p.retry_delay * (if p.exponential_backoff then (2 : Rat) ^ a else 1)

/-- The retry loop of `_call_llm`: `for attempt in range(max_retries + 1)`;
`act a` is the outcome of the attempt with index `a` (calling
`get_llm_response`), the second argument counts the attempts remaining
after the current one.  On failure with attempts remaining, record the
backoff delay and retry; on the last attempt, propagate the failure. -/
def call_llm_aux (act : Nat → Except Str Str × List Call) (delayOf : Nat → Rat) :
    Nat → Nat → CallOut
  | a, 0 => ⟨(act a).1, 1, (act a).2, []⟩
  | a, k + 1 =>
    match act a with
    | (Except.ok v, cs) => ⟨Except.ok v, 1, cs, []⟩
    | (Except.error _, cs) =>
      let rest := call_llm_aux act delayOf (a + 1) k
      ⟨rest.result, rest.attempts + 1, cs ++ rest.calls, delayOf a :: rest.delays⟩

/-- One attempt of `_call_llm`: call `get_llm_response` with the stage's
configured provider and model. -/
def llm_attempt (resp : Nat → Call → Except Str Str) (cfg : Config)
    (prompt stage : Str) (a : Nat) : Except Str Str × List Call :=
  get_llm_response (resp a) prompt (model_config_of cfg stage).provider
    (some (model_config_of cfg stage).model)

/-- `PromptOptimizer._call_llm(prompt, stage)`: stage-routed invocation with
retry and backoff. -/
def call_llm (resp : Nat → Call → Except Str Str) (cfg : Config)
    (prompt stage : Str) : CallOut :=
  call_llm_aux (llm_attempt resp cfg prompt stage) (delay_of cfg.perf) 0
    cfg.perf.max_retries

/-- The five templates of `prompts/prompts.yml` (external data, see header):
each template together with `str.format` is a function of its named
placeholder values. -/
structure Prompts where
  initial : Str → Str → Str → Str
  answer : Str → Str → Str
  optimizerT : Str → Str → Str → Str → Str
  feedbackT : Str → Rat → Nat → Nat → Str → Str
  evolverT : Str → Str → Rat → Nat → Str

/-- Apply a pure post-processing step to the returned value. -/
def mapResult (f : Str → Str) (co : CallOut) : CallOut :=
  ⟨co.result.map f, co.attempts, co.calls, co.delays⟩

/-- `PromptOptimizer.generate_initial_prompt` (bootstrap): render the
INITIAL_PROMPT_GENERATOR template, invoke at stage
`initial_prompt_generator`, extract the marked prompt. -/
def generate_initial_prompt (resp : Nat → Call → Except Str Str) (cfg : Config)
    (P : Prompts) (use_case input_data output_data : Str) : CallOut :=
  mapResult extract_prompt_from_response
    (call_llm resp cfg (P.initial use_case input_data output_data)
      "initial_prompt_generator".toList)

/-- `PromptOptimizer.generate_answer`: render the ANSWER_GENERATOR template
and invoke at stage `answer_generator` (no extraction). -/
def generate_answer (resp : Nat → Call → Except Str Str) (cfg : Config)
    (P : Prompts) (prompt input_data : Str) : CallOut :=
  call_llm resp cfg (P.answer prompt input_data) "answer_generator".toList

/-- `PromptOptimizer.optimize_prompt` (patch): render the PROMPT_OPTIMIZER
template with `(prompt, input_data, output_data := actual_output,
actual_output := expected_output)` — the slot names are the template's —
invoke at stage `prompt_optimizer`, extract. -/
def optimize_prompt (resp : Nat → Call → Except Str Str) (cfg : Config)
    (P : Prompts) (current_prompt input_data actual_output expected_output : Str) :
    CallOut :=
  mapResult extract_prompt_from_response
    (call_llm resp cfg
      (P.optimizerT current_prompt input_data actual_output expected_output)
      "prompt_optimizer".toList)

/-- The failed-case digest built by `collect_feedback`: at most 5 entries,
each rendered as an Input/Expected/Got block, joined by newlines. -/
def failed_case_line (f : FailedCase) : Str :=
  "Input: ".toList ++ f.1 ++ "\nExpected: ".toList ++ f.2.1 ++
    "\nGot: ".toList ++ f.2.2 ++ "\n---".toList

def failed_cases_text (fcs : List FailedCase) : Str :=
  List.intercalate "\n".toList ((fcs.take 5).map failed_case_line)

/-- `PromptOptimizer.collect_feedback`: renders FEEDBACK_COLLECTOR and calls
`get_llm_response(formatted_prompt, "claude")` directly — one attempt, no
retry wrapper, hardcoded provider, default model. -/
def collect_feedback (resp : Nat → Call → Except Str Str) (P : Prompts)
    (prompt : Str) (success_rate : Rat) (successful_cases total_cases : Nat)
    (failed_cases : List FailedCase) : CallOut :=
  let g := get_llm_response (resp 0)
    (P.feedbackT prompt success_rate successful_cases total_cases
      (failed_cases_text failed_cases)) "claude".toList none
  ⟨g.1, 1, g.2, []⟩

/-- `PromptOptimizer.evolve_prompt` (rewrite): renders PROMPT_EVOLVER and
calls `get_llm_response(formatted_prompt, "claude")` directly — one attempt,
no retry wrapper, hardcoded provider, default model — then extracts. -/
def evolve_prompt (resp : Nat → Call → Except Str Str) (P : Prompts)
    (current_prompt feedback : Str) (success_rate : Rat) (iteration : Nat) :
    CallOut :=
  let g := get_llm_response (resp 0)
    (P.evolverT current_prompt feedback success_rate iteration) "claude".toList none
  ⟨g.1.map extract_prompt_from_response, 1, g.2, []⟩

/-- The call `c` is addressed exactly as the stage configuration `mc`
dictates, following the routing of `get_llm_response`. -/
def routedTo (mc : ModelCfg) (c : Call) : Prop :=
  (lowerStr mc.provider = "claude".toList ∧ c.channel = "claude".toList ∧
    c.model = mc.model) ∨
  ((lowerStr mc.provider = "gpt".toList ∨ lowerStr mc.provider = "openai".toList) ∧
    c.channel = "gpt".toList ∧ c.model = mc.model)

theorem get_llm_response_calls (resp : Call → Except Str Str)
    (message llm_type : Str) (model : Option Str) (c : Call)
    (hc : c ∈ (get_llm_response resp message llm_type model).2) :
    c.message = message ∧
    ((lowerStr llm_type = "claude".toList ∧ c.channel = "claude".toList ∧
        c.model = model.getD "claude-sonnet-4-5-20250929".toList) ∨
      ((lowerStr llm_type = "gpt".toList ∨ lowerStr llm_type = "openai".toList) ∧
        c.channel = "gpt".toList ∧ c.model = model.getD "gpt-4".toList)) := by
  unfold get_llm_response at hc
  by_cases h1 : lowerStr llm_type = "claude".toList
  · rw [if_pos h1] at hc
    simp only [List.mem_singleton] at hc
    subst hc
    exact ⟨rfl, Or.inl ⟨h1, rfl, rfl⟩⟩
  · rw [if_neg h1] at hc
    by_cases h2 : lowerStr llm_type = "gpt".toList ∨ lowerStr llm_type = "openai".toList
    · rw [if_pos h2] at hc
      simp only [List.mem_singleton] at hc
      subst hc
      exact ⟨rfl, Or.inr ⟨h2, rfl, rfl⟩⟩
    · rw [if_neg h2] at hc
      simp at hc

theorem call_llm_aux_calls {Q : Call → Prop} (act : Nat → Except Str Str × List Call)
    (delayOf : Nat → Rat) (hQ : ∀ a c, c ∈ (act a).2 → Q c) :
    ∀ k a c, c ∈ (call_llm_aux act delayOf a k).calls → Q c
  | 0, a, c, hc => hQ a c hc
  | k + 1, a, c, hc => by
    rcases hact : act a with ⟨r, cs⟩
    rcases r with e | v
    · simp only [call_llm_aux, hact, List.mem_append] at hc
      rcases hc with hc | hc
      · exact hQ a c (by rw [hact]; exact hc)
      · exact call_llm_aux_calls act delayOf hQ k (a + 1) c hc
    · simp only [call_llm_aux, hact] at hc
      exact hQ a c (by rw [hact]; exact hc)

theorem call_llm_calls (resp : Nat → Call → Except Str Str) (cfg : Config)
    (prompt stage : Str) (c : Call)
    (hc : c ∈ (call_llm resp cfg prompt stage).calls) :
    c.message = prompt ∧ routedTo (model_config_of cfg stage) c := by
  refine @call_llm_aux_calls
    (fun c => c.message = prompt ∧ routedTo (model_config_of cfg stage) c)
    (llm_attempt resp cfg prompt stage) (delay_of cfg.perf) ?_
    cfg.perf.max_retries 0 c hc
  intro a d hd
  have h := get_llm_response_calls (resp a) prompt
    (model_config_of cfg stage).provider (some (model_config_of cfg stage).model) d hd
  simpa [routedTo] using h

theorem call_llm_aux_fail (act : Nat → Except Str Str × List Call)
    (delayOf : Nat → Rat) (hf : ∀ a, ∃ e, (act a).1 = Except.error e) :
    ∀ k a,
      (call_llm_aux act delayOf a k).result = (act (a + k)).1 ∧
      (call_llm_aux act delayOf a k).attempts = k + 1 ∧
      (call_llm_aux act delayOf a k).delays = (List.range' a k).map delayOf
  | 0, a => by simp [call_llm_aux]
  | k + 1, a => by
    obtain ⟨e, he⟩ := hf a
    rcases hact : act a with ⟨r, cs⟩
    have hr : r = Except.error e := by rw [hact] at he; exact he
    subst hr
    have IH := call_llm_aux_fail act delayOf hf k (a + 1)
    have hrw : a + 1 + k = a + (k + 1) := by omega
    simp only [call_llm_aux, hact]
    refine ⟨?_, ?_, ?_⟩
    · rw [IH.1, hrw]
    · rw [IH.2.1]
    · rw [IH.2.2, List.range'_succ, List.map_cons]

theorem llm_attempt_error (resp : Nat → Call → Except Str Str) (cfg : Config)
    (prompt stage : Str) (msg : Nat → Call → Str)
    (hfail : ∀ a c, resp a c = Except.error (msg a c)) (a : Nat) :
    ∃ e, (llm_attempt resp cfg prompt stage a).1 = Except.error e := by
  unfold llm_attempt get_llm_response
  split_ifs with h1 h2
  · exact ⟨_, hfail a _⟩
  · exact ⟨_, hfail a _⟩
  · exact ⟨_, rfl⟩

/-- Claim C4: against a transport that fails on every call, `_call_llm`
makes exactly `max_retries + 1` attempts, requests a backoff delay of
`retry_delay * 2 ** attempt` after each failed attempt except the last
(`retry_delay` flat when exponential backoff is off — both captured by
`delay_of`), and then propagates the failure of the last attempt as the
raised error. -/
theorem retry_exhaustion (resp : Nat → Call → Except Str Str) (cfg : Config)
    (prompt stage : Str) (msg : Nat → Call → Str)
    (hfail : ∀ a c, resp a c = Except.error (msg a c)) :
    (∃ e, (call_llm resp cfg prompt stage).result = Except.error e) ∧
    (call_llm resp cfg prompt stage).result =
      (llm_attempt resp cfg prompt stage cfg.perf.max_retries).1 ∧
    (call_llm resp cfg prompt stage).attempts = cfg.perf.max_retries + 1 ∧
    (call_llm resp cfg prompt stage).delays =
      (List.range cfg.perf.max_retries).map (delay_of cfg.perf) := by
  have hf : ∀ a, ∃ e, (llm_attempt resp cfg prompt stage a).1 = Except.error e :=
    llm_attempt_error resp cfg prompt stage msg hfail
  have h := call_llm_aux_fail (llm_attempt resp cfg prompt stage)
    (delay_of cfg.perf) hf cfg.perf.max_retries 0
  unfold call_llm
  refine ⟨?_, ?_, h.2.1, ?_⟩
  · rw [h.1, Nat.zero_add]
    exact hf _
  · rw [h.1, Nat.zero_add]
  · rw [h.2.2, List.range_eq_range']

/-- A transport that fails on every call with message `boom`. -/
def respBoom : Nat → Call → Except Str Str := fun _ _ => Except.error "boom".toList

/-- Concrete configuration: `max_retries = 2`, `retry_delay = 1`,
exponential backoff on; every stage runs provider claude, model m1. -/
def cfgRetry : Config :=
  ⟨fun _ => some ⟨"claude".toList, "m1".toList⟩, ⟨2, 1, true⟩⟩

/-- Witness for C4, the spec's concrete scenario: `max_retries = 2`,
`base_delay = 1`, exponential backoff — exactly 3 attempts, delays 1s and
2s, and the original failure is raised. -/
theorem retry_exhaustion_witness :
    (call_llm respBoom cfgRetry "p".toList "answer_generator".toList).attempts = 3 ∧
    (call_llm respBoom cfgRetry "p".toList "answer_generator".toList).delays = [1, 2] ∧
    (call_llm respBoom cfgRetry "p".toList "answer_generator".toList).result =
      Except.error "boom".toList := by
  have h := retry_exhaustion respBoom cfgRetry "p".toList "answer_generator".toList
    (fun _ _ => "boom".toList) (fun _ _ => rfl)
  refine ⟨h.2.2.1, ?_, ?_⟩
  · rw [h.2.2.2]
    norm_num [cfgRetry, delay_of, List.range_succ]
  · rw [h.2.1]
    rfl

/-- Claim C1 (amended): bootstrap (`generate_initial_prompt`) and patch
(`optimize_prompt`) route every transport call through the retrying invoker
`_call_llm` at their own stages — `initial_prompt_generator` and
`prompt_optimizer` respectively — so those stages may route to distinct
providers/models.  Rewrite (`evolve_prompt`), however, calls the gateway
directly with the hardcoded provider tag `claude` and its default model,
making exactly one attempt with no retry, no backoff, and no use of the
`prompt_evolver` stage configuration. -/
theorem mutator_stage_routing (resp : Nat → Call → Except Str Str)
    (cfg : Config) (P : Prompts) :
    (∀ uc i o c, c ∈ (generate_initial_prompt resp cfg P uc i o).calls →
      c.message = P.initial uc i o ∧
        routedTo (model_config_of cfg "initial_prompt_generator".toList) c) ∧
    (∀ cur i a e c, c ∈ (optimize_prompt resp cfg P cur i a e).calls →
      c.message = P.optimizerT cur i a e ∧
        routedTo (model_config_of cfg "prompt_optimizer".toList) c) ∧
    (∀ cur fb sr it,
      (evolve_prompt resp P cur fb sr it).calls =
        [⟨P.evolverT cur fb sr it, "claude".toList,
          "claude-sonnet-4-5-20250929".toList⟩] ∧
      (evolve_prompt resp P cur fb sr it).attempts = 1 ∧
      (evolve_prompt resp P cur fb sr it).delays = []) := by
  refine ⟨fun uc i o c hc => ?_, fun cur i a e c hc => ?_, fun cur fb sr it => ?_⟩
  · exact call_llm_calls resp cfg (P.initial uc i o)
      "initial_prompt_generator".toList c hc
  · exact call_llm_calls resp cfg (P.optimizerT cur i a e)
      "prompt_optimizer".toList c hc
  · exact ⟨rfl, rfl, rfl⟩

/-- A transport that fails on every call with message `down`. -/
def respDown : Nat → Call → Except Str Str := fun _ _ => Except.error "down".toList

/-- A configuration whose `prompt_evolver` stage is routed to provider gpt,
model gpt-4, with `max_retries = 2`. -/
def cfgEvolver : Config :=
  ⟨fun s => if s = "prompt_evolver".toList then some ⟨"gpt".toList, "gpt-4".toList⟩
    else none, ⟨2, 1, true⟩⟩

/-- Prompt templates whose rendered text is irrelevant to the claims. -/
def trivialPrompts : Prompts :=
  ⟨fun _ _ _ => [], fun _ _ => [], fun _ _ _ _ => [],
    fun _ _ _ _ _ => [], fun _ _ _ _ => "E".toList⟩

/-- Counterexample to C1 as stated: even with the `prompt_evolver` stage
configured to provider gpt / model gpt-4 and `max_retries = 2`, a
permanently failing transport receives exactly one call from
`evolve_prompt`, addressed to the hardcoded claude channel with its default
model — not three retried calls to the configured gpt/gpt-4. -/
theorem evolve_prompt_ignores_stage_config :
    (model_config_of cfgEvolver "prompt_evolver".toList).provider = "gpt".toList ∧
    (model_config_of cfgEvolver "prompt_evolver".toList).model = "gpt-4".toList ∧
    cfgEvolver.perf.max_retries + 1 = 3 ∧
    (evolve_prompt respDown trivialPrompts "c".toList "f".toList 0 4).attempts = 1 ∧
    (evolve_prompt respDown trivialPrompts "c".toList "f".toList 0 4).calls =
      [⟨"E".toList, "claude".toList, "claude-sonnet-4-5-20250929".toList⟩] ∧
    (evolve_prompt respDown trivialPrompts "c".toList "f".toList 0 4).result =
      Except.error "down".toList ∧
    (evolve_prompt respDown trivialPrompts "c".toList "f".toList 0 4).delays = [] := by
  refine ⟨rfl, rfl, rfl, rfl, rfl, rfl, rfl⟩

/-- A transport that always succeeds with text `r`. -/
def respOk : Nat → Call → Except Str Str := fun _ _ => Except.ok "r".toList

/-- A configuration routing `initial_prompt_generator` to claude / model mI. -/
def cfgInit : Config :=
  ⟨fun s => if s = "initial_prompt_generator".toList
    then some ⟨"claude".toList, "mI".toList⟩ else none, ⟨0, 1, true⟩⟩

/-- Witness for C1 (amended): the single call made by a bootstrap under
`cfgInit` carries the rendered message and is routed per the
`initial_prompt_generator` stage configuration. -/
theorem mutator_stage_routing_witness :
    (⟨[], "claude".toList, "mI".toList⟩ : Call).message =
      trivialPrompts.initial [] [] [] ∧
    routedTo (model_config_of cfgInit "initial_prompt_generator".toList)
      ⟨[], "claude".toList, "mI".toList⟩ :=
  (mutator_stage_routing respOk cfgInit trivialPrompts).1 [] [] []
    ⟨[], "claude".toList, "mI".toList⟩ (by decide)

/-- One test case: `(input_data, expected_output)`. -/
abbrev Case := Str × Str

def errTag : Str := "Error: ".toList

/-- `PromptOptimizer._test_single_case` for a fixed prompt: `ans` is the
outcome of `generate_answer(prompt, input_data)` under a deterministic
gateway.  Returns `(is_match, actual_output)`; a raised exception is caught
and `str(e)` becomes the actual output with `is_match = False`.  (The case
index and verbose printing affect only logging and are omitted.) -/
def test_single_case (ans : Str → Except Str Str) (c : Case) : Bool × Str :=
  match ans c.1 with
  | Except.ok out => (check_output_match out c.2, out)
  | Except.error e => (false, e)

/-- `PromptOptimizer._test_sequential`: cases in order; a match increments
the counter, a mismatch appends `(input, expected, actual)`, an exception
appends `(input, expected, "Error: " + str(e))`. -/
def test_sequential (ans : Str → Except Str Str) :
    List Case → Nat × Nat × List FailedCase
  | [] => (0, 0, [])
  | c :: cs =>
    let rest := test_sequential ans cs
    match ans c.1 with
    | Except.ok out =>
      if check_output_match out c.2 then (rest.1 + 1, rest.2.1 + 1, rest.2.2)
      else (rest.1, rest.2.1 + 1, (c.1, c.2, out) :: rest.2.2)
    | Except.error e => (rest.1, rest.2.1 + 1, (c.1, c.2, errTag ++ e) :: rest.2.2)

/-- Collection of one parallel batch, in the order the futures complete
(the argument list is the batch in completion order): a match increments
the counter, anything else appends `(input, expected, actual)` where the
actual text comes from `_test_single_case` (bare `str(e)` on failure). -/
def test_batch (ans : Str → Except Str Str) : List Case → Nat × List FailedCase
  | [] => (0, [])
  | c :: cs =>
    let rest := test_batch ans cs
    match test_single_case ans c with
    | (true, _) => (rest.1 + 1, rest.2)
    | (false, out) => (rest.1, (c.1, c.2, out) :: rest.2)

/-- The parallel path of `test_prompt_with_data`: batches processed one at
a time (the inter-batch rate-limit sleep has no effect on results). -/
def test_parallel (ans : Str → Except Str Str) :
    List (List Case) → Nat × List FailedCase
  | [] => (0, [])
  | b :: bs =>
    let rb := test_batch ans b
    let rest := test_parallel ans bs
    (rb.1 + rest.1, rb.2 ++ rest.2)

/-- Helper for `chunkList`: walk the data once, accumulating the current
chunk in reverse in `cur`, emitting it when it reaches size `n`. -/
def chunkGo {α : Type} (n : Nat) : List α → List α → List (List α)
  | cur, [] => if cur.isEmpty then [] else [cur.reverse]
  | cur, a :: l =>
    if n ≤ (a :: cur).length then (a :: cur).reverse :: chunkGo n [] l
    else chunkGo n (a :: cur) l

/-- `[test_data[i:i + batch_size] for i in range(0, len(test_data),
batch_size)]`: consecutive chunks of size `batch_size` in dataset order,
last chunk possibly shorter.  The configuration requires `batch_size ≥ 1`. -/
def chunkList {α : Type} (n : Nat) (l : List α) : List (List α) := chunkGo n [] l

/-- The evaluator slice of `config['performance']`. -/
structure EvalCfg where
  enable_parallel : Bool
  max_workers : Nat
  batch_size : Nat

/-- `PromptOptimizer.test_prompt_with_data`: parallel batched evaluation
when `enable_parallel` and more than 3 cases, else sequential.  `obs` is
the batch list in completion order (each batch some permutation of the
submitted chunk, reflecting `as_completed`); it is ignored on the
sequential path. -/
def test_prompt_with_data (cfg : EvalCfg) (ans : Str → Except Str Str)
    (data : List Case) (obs : List (List Case)) : Nat × Nat × List FailedCase :=
  if cfg.enable_parallel ∧ data.length > 3 then
    ((test_parallel ans obs).1, data.length, (test_parallel ans obs).2)
  else test_sequential ans data

/-- Pointwise permutation check between the submitted chunks and an
observed completion order. -/
def permAll {α : Type} [DecidableEq α] : List (List α) → List (List α) → Bool
  | [], [] => true
  | a :: as, b :: bs => a.isPerm b && permAll as bs
  | _, _ => false

/-- Whether a case passes under gateway `ans`. -/
def case_match (ans : Str → Except Str Str) (c : Case) : Bool :=
  (test_single_case ans c).1

/-- The failed-case entry the parallel path records for `c`, if any. -/
def par_fail (ans : Str → Except Str Str) (c : Case) : Option FailedCase :=
  match test_single_case ans c with
  | (true, _) => none
  | (false, out) => some (c.1, c.2, out)

/-- The failed-case entry the sequential path records for `c`, if any. -/
def seq_fail (ans : Str → Except Str Str) (c : Case) : Option FailedCase :=
  match ans c.1 with
  | Except.ok out =>
    if check_output_match out c.2 then none else some (c.1, c.2, out)
  | Except.error e => some (c.1, c.2, errTag ++ e)

theorem test_sequential_eq (ans : Str → Except Str Str) : ∀ l : List Case,
    test_sequential ans l =
      (l.countP (case_match ans), l.length, l.filterMap (seq_fail ans))
  | [] => rfl
  | c :: cs => by
    have IH := test_sequential_eq ans cs
    rcases hc : ans c.1 with e | out
    · simp [test_sequential, hc, IH, List.countP_cons, List.filterMap_cons,
        seq_fail, case_match, test_single_case]
    · by_cases hm : check_output_match out c.2
      · simp [test_sequential, hc, hm, IH, List.countP_cons, List.filterMap_cons,
          seq_fail, case_match, test_single_case]
      · simp [test_sequential, hc, hm, IH, List.countP_cons, List.filterMap_cons,
          seq_fail, case_match, test_single_case]

theorem test_batch_eq (ans : Str → Except Str Str) : ∀ l : List Case,
    test_batch ans l = (l.countP (case_match ans), l.filterMap (par_fail ans))
  | [] => rfl
  | c :: cs => by
    have IH := test_batch_eq ans cs
    rcases hts : test_single_case ans c with ⟨b, out⟩
    cases b
    · simp [test_batch, hts, IH, List.countP_cons, List.filterMap_cons,
        par_fail, case_match]
    · simp [test_batch, hts, IH, List.countP_cons, List.filterMap_cons,
        par_fail, case_match]

theorem test_parallel_eq (ans : Str → Except Str Str) : ∀ obs : List (List Case),
    test_parallel ans obs =
      (obs.flatten.countP (case_match ans), obs.flatten.filterMap (par_fail ans))
  | [] => rfl
  | b :: bs => by
    simp [test_parallel, test_batch_eq, test_parallel_eq ans bs,
      List.countP_append, List.filterMap_append]

theorem permAll_flatten_perm {α : Type} [DecidableEq α] :
    ∀ as bs : List (List α), permAll as bs = true → as.flatten.Perm bs.flatten
  | [], [], _ => by simp
  | a :: as, b :: bs, h => by
    simp only [permAll, Bool.and_eq_true] at h
    have h1 : a.Perm b := List.isPerm_iff.mp h.1
    have h2 := permAll_flatten_perm as bs h.2
    simpa using h1.append h2
  | [], _ :: _, h => by simp [permAll] at h
  | _ :: _, [], h => by simp [permAll] at h

theorem chunkGo_flatten {α : Type} (n : Nat) : ∀ (l cur : List α),
    (chunkGo n cur l).flatten = cur.reverse ++ l
  | [], cur => by
    by_cases h : cur.isEmpty
    · rw [List.isEmpty_iff] at h
      simp [chunkGo, h]
    · simp [chunkGo, h]
  | a :: l, cur => by
    simp only [chunkGo, List.length_cons]
    by_cases h : n ≤ cur.length + 1
    · rw [if_pos h]
      simp [chunkGo_flatten n l [], List.reverse_cons, List.append_assoc]
    · rw [if_neg h]
      simp [chunkGo_flatten n l (a :: cur), List.reverse_cons, List.append_assoc]

theorem chunkList_flatten {α : Type} (n : Nat) (l : List α) :
    (chunkList n l).flatten = l := by
  simpa using chunkGo_flatten n l []

theorem countP_add_filterMap_par (ans : Str → Except Str Str) :
    ∀ l : List Case,
      l.countP (case_match ans) + (l.filterMap (par_fail ans)).length = l.length
  | [] => rfl
  | c :: cs => by
    have IH := countP_add_filterMap_par ans cs
    rcases hts : test_single_case ans c with ⟨b, out⟩
    cases b
    · simp only [List.countP_cons, List.filterMap_cons, case_match, par_fail, hts,
        List.length_cons]
      simp only [cond_false, Bool.false_eq_true, if_false, List.length_cons]
      omega
    · simp only [List.countP_cons, List.filterMap_cons, case_match, par_fail, hts,
        List.length_cons]
      simp only [if_true, List.length_cons]
      omega

theorem countP_add_filterMap_seq (ans : Str → Except Str Str) :
    ∀ l : List Case,
      l.countP (case_match ans) + (l.filterMap (seq_fail ans)).length = l.length
  | [] => rfl
  | c :: cs => by
    have IH := countP_add_filterMap_seq ans cs
    rcases hc : ans c.1 with e | out
    · simp [List.countP_cons, List.filterMap_cons, case_match, seq_fail,
        test_single_case, hc]
      omega
    · by_cases hm : check_output_match out c.2
      · simp [List.countP_cons, List.filterMap_cons, case_match, seq_fail,
          test_single_case, hc, hm]
        omega
      · simp [List.countP_cons, List.filterMap_cons, case_match, seq_fail,
          test_single_case, hc, hm]
        omega

/-- Claim C10: evaluation returns `(match_count, total, failed_cases)` with
`total` equal to the dataset length and `match_count + |failed_cases| =
total` — every case is accounted for exactly once, in both sequential and
parallel modes (for any completion order of the submitted batches). -/
theorem evaluation_accounts_all_cases (cfg : EvalCfg)
    (ans : Str → Except Str Str) (data : List Case) (obs : List (List Case))
    (hord : permAll (chunkList cfg.batch_size data) obs = true) :
    (test_prompt_with_data cfg ans data obs).2.1 = data.length ∧
    (test_prompt_with_data cfg ans data obs).1 +
      (test_prompt_with_data cfg ans data obs).2.2.length = data.length := by
  unfold test_prompt_with_data
  by_cases hp : cfg.enable_parallel ∧ data.length > 3
  · rw [if_pos hp]
    refine ⟨rfl, ?_⟩
    have hperm : (chunkList cfg.batch_size data).flatten.Perm obs.flatten :=
      permAll_flatten_perm _ _ hord
    have hflat : (chunkList cfg.batch_size data).flatten = data :=
      chunkList_flatten _ _
    have hlen : obs.flatten.length = data.length := by
      rw [← hflat]
      exact hperm.length_eq.symm
    rw [test_parallel_eq]
    rw [← hlen]
    exact countP_add_filterMap_par ans obs.flatten
  · rw [if_neg hp, test_sequential_eq]
    exact ⟨rfl, countP_add_filterMap_seq ans data⟩

/-- A deterministic gateway that fails on input `b` and answers `x`
otherwise. -/
def ansW : Str → Except Str Str :=
  fun i => if i = "b".toList then Except.error "boom".toList else Except.ok "x".toList

/-- Four test cases: `a` and `c` match, `b` raises, `d` mismatches. -/
def dataW : List Case :=
  [("a".toList, "x".toList), ("b".toList, "y".toList),
   ("c".toList, "x".toList), ("d".toList, "z".toList)]

/-- Witness for C10 at a concrete configuration, dataset and batch order. -/
theorem evaluation_accounts_all_cases_witness :
    (test_prompt_with_data ⟨true, 2, 2⟩ ansW dataW (chunkList 2 dataW)).2.1
      = dataW.length ∧
    (test_prompt_with_data ⟨true, 2, 2⟩ ansW dataW (chunkList 2 dataW)).1 +
      (test_prompt_with_data ⟨true, 2, 2⟩ ansW dataW (chunkList 2 dataW)).2.2.length
      = dataW.length :=
  evaluation_accounts_all_cases ⟨true, 2, 2⟩ ansW dataW (chunkList 2 dataW) (by decide)

/-- Counterexample to C6 as stated: with the deterministic gateway `ansW`
(which fails on case `b`), parallel and sequential evaluation agree on the
match count but record different failed-case sets: the parallel per-case
path records the bare failure text `boom`, the sequential path records
`Error: boom`. -/
theorem parallel_sequential_divergence :
    permAll (chunkList 8 dataW) [dataW] = true ∧
    (test_prompt_with_data ⟨true, 4, 8⟩ ansW dataW [dataW]).1 =
      (test_prompt_with_data ⟨false, 4, 8⟩ ansW dataW [dataW]).1 ∧
    ("b".toList, "y".toList, "boom".toList) ∈
      (test_prompt_with_data ⟨true, 4, 8⟩ ansW dataW [dataW]).2.2 ∧
    ("b".toList, "y".toList, "boom".toList) ∉
      (test_prompt_with_data ⟨false, 4, 8⟩ ansW dataW [dataW]).2.2 := by
  decide

/-- Claim C6 (amended): for a fixed dataset and deterministic gateway, and
any completion order of the batches, parallel and sequential evaluation
yield the same match count and the same total; when the gateway succeeds on
every case of the dataset (possibly mismatching), the failed-case lists are
permutations of each other (only the order may differ).  When an invocation
fails, the recorded actual-output texts differ between the modes
(`str(e)` versus `Error: str(e)`), so the failed sets need not coincide. -/
theorem parallel_sequential_equivalence (w bs : Nat)
    (ans : Str → Except Str Str) (data : List Case) (obs : List (List Case))
    (hord : permAll (chunkList bs data) obs = true) :
    (test_prompt_with_data ⟨true, w, bs⟩ ans data obs).1 =
      (test_prompt_with_data ⟨false, w, bs⟩ ans data obs).1 ∧
    (test_prompt_with_data ⟨true, w, bs⟩ ans data obs).2.1 =
      (test_prompt_with_data ⟨false, w, bs⟩ ans data obs).2.1 ∧
    ((∀ c ∈ data, ∃ out, ans c.1 = Except.ok out) →
      (test_prompt_with_data ⟨true, w, bs⟩ ans data obs).2.2.Perm
        (test_prompt_with_data ⟨false, w, bs⟩ ans data obs).2.2) := by
  have hseqcfg : ¬ ((⟨false, w, bs⟩ : EvalCfg).enable_parallel ∧ data.length > 3) := by
    intro h
    simpa using h.1
  by_cases hp : data.length > 3
  · have hparcfg : (⟨true, w, bs⟩ : EvalCfg).enable_parallel ∧ data.length > 3 :=
      ⟨rfl, hp⟩
    unfold test_prompt_with_data
    rw [if_pos hparcfg, if_neg hseqcfg]
    have hperm : obs.flatten.Perm data := by
      have h1 := permAll_flatten_perm _ _ hord
      rw [chunkList_flatten] at h1
      exact h1.symm
    rw [test_parallel_eq, test_sequential_eq]
    refine ⟨hperm.countP_eq _, rfl, ?_⟩
    intro hok
    have h2 : (obs.flatten.filterMap (par_fail ans)).Perm
        (data.filterMap (par_fail ans)) := hperm.filterMap _
    have h3 : data.filterMap (par_fail ans) = data.filterMap (seq_fail ans) := by
      refine List.filterMap_congr ?_
      intro c hc
      obtain ⟨out, ho⟩ := hok c hc
      simp [par_fail, seq_fail, test_single_case, ho]
      by_cases hm : check_output_match out c.2 <;> simp [hm]
    rw [← h3]
    exact h2
  · have h1 : ¬ ((⟨true, w, bs⟩ : EvalCfg).enable_parallel ∧ data.length > 3) := by
      intro h
      exact hp h.2
    unfold test_prompt_with_data
    rw [if_neg h1, if_neg hseqcfg]
    exact ⟨rfl, rfl, fun _ => List.Perm.refl _⟩

/-- A gateway that always answers `x`. -/
def ansOk : Str → Except Str Str := fun _ => Except.ok "x".toList

/-- A nontrivial completion order for `chunkList 2 dataW`: the first batch
completes in reversed order. -/
def obsW : List (List Case) :=
  [[("b".toList, "y".toList), ("a".toList, "x".toList)],
   [("c".toList, "x".toList), ("d".toList, "z".toList)]]

/-- Witness for C6 (amended) at a concrete never-failing gateway, dataset
and permuted completion order. -/
theorem parallel_sequential_equivalence_witness :
    (test_prompt_with_data ⟨true, 2, 2⟩ ansOk dataW obsW).1 =
      (test_prompt_with_data ⟨false, 2, 2⟩ ansOk dataW obsW).1 ∧
    (test_prompt_with_data ⟨true, 2, 2⟩ ansOk dataW obsW).2.1 =
      (test_prompt_with_data ⟨false, 2, 2⟩ ansOk dataW obsW).2.1 ∧
    (test_prompt_with_data ⟨true, 2, 2⟩ ansOk dataW obsW).2.2.Perm
      (test_prompt_with_data ⟨false, 2, 2⟩ ansOk dataW obsW).2.2 := by
  have h := parallel_sequential_equivalence 2 2 ansOk dataW obsW (by decide)
  exact ⟨h.1, h.2.1, h.2.2 (fun c _ => ⟨"x".toList, rfl⟩)⟩

/-- Counterexample to C7 as stated: for a case whose invocation fails with
`boom`, the sequential evaluator records `Error: boom` as the actual
output — the failure text itself is not the recorded actual output. -/
theorem error_text_not_verbatim :
    (test_sequential ansW [("b".toList, "y".toList)]).2.2 =
      [("b".toList, "y".toList, "Error: boom".toList)] ∧
    ("b".toList, "y".toList, "boom".toList) ∉
      (test_sequential ansW [("b".toList, "y".toList)]).2.2 := by
  decide

/-- Claim C7 (amended): a model-invocation failure never aborts evaluation
(the embedding is total); the failing case counts as a mismatch and appears
in the failed-case list with its recorded actual output carrying the
failure text — `Error: str(e)` on the sequential path, the bare `str(e)`
on the parallel per-case path — so the error surfaces as evidence rather
than being dropped. -/
theorem invocation_failure_surfaces (ans : Str → Except Str Str)
    (data : List Case) (c : Case) (e : Str)
    (hc : c ∈ data) (he : ans c.1 = Except.error e) :
    case_match ans c = false ∧
    (c.1, c.2, errTag ++ e) ∈ (test_sequential ans data).2.2 ∧
    (test_sequential ans data).1 = data.countP (case_match ans) ∧
    ∀ obs (b : List Case), b ∈ obs → c ∈ b →
      (c.1, c.2, e) ∈ (test_parallel ans obs).2 := by
  refine ⟨by simp [case_match, test_single_case, he], ?_, ?_, ?_⟩
  · rw [test_sequential_eq]
    exact List.mem_filterMap.mpr ⟨c, hc, by simp [seq_fail, he]⟩
  · rw [test_sequential_eq]
  · intro obs b hb hcb
    rw [test_parallel_eq]
    exact List.mem_filterMap.mpr
      ⟨c, List.mem_flatten.mpr ⟨b, hb, hcb⟩, by simp [par_fail, test_single_case, he]⟩

/-- Witness for C7 (amended) at the concrete failing case `b` of `dataW`. -/
theorem invocation_failure_surfaces_witness :
    case_match ansW ("b".toList, "y".toList) = false ∧
    (("b".toList, "y".toList, errTag ++ "boom".toList) ∈
      (test_sequential ansW dataW).2.2) ∧
    (test_sequential ansW dataW).1 = dataW.countP (case_match ansW) ∧
    (∀ obs (b : List Case), b ∈ obs → ("b".toList, "y".toList) ∈ b →
      (("b".toList, "y".toList, "boom".toList) ∈ (test_parallel ansW obs).2)) :=
  invocation_failure_surfaces ansW dataW ("b".toList, "y".toList) "boom".toList
    (by decide) (by decide)

/-- The mutation oracles of the loop: under a deterministic gateway each
mutator (`optimize_prompt`, `collect_feedback`, `evolve_prompt`) is a
function of its arguments — template rendering, model invocation and
extraction composed.  The loop claims hold for every such oracle.  (A
mutation-path invocation failure raises out of `create_golden_prompt` and
no result is returned; the claims below concern completed runs, embedded by
total oracles.) -/
structure Mutators where
  patchF : Str → Str → Str → Str → Str
  feedbackF : Str → Rat → Nat → Nat → List FailedCase → Str
  evolveF : Str → Str → Rat → Nat → Str

/-- One entry of `performance_history`: iteration number (1-based),
`success_rate`, `quality_score` (the `overall_quality`), and the prompt
evaluated in this iteration. -/
structure IterRec where
  iteration : Nat
  success_rate : Rat
  quality_score : Rat
  prompt : Str
deriving DecidableEq

/-- The loop state: `current_prompt`, `best_prompt`, `best_quality_score`,
`performance_history`. -/
structure LoopState where
  current : Str
  best : Str
  bestQ : Rat
  history : List IterRec
deriving DecidableEq

/-- `(successful_matches / total_tests) * 100 if total_tests > 0 else 0`,
in exact rational arithmetic. -/
def success_rate_of (m t : Nat) : Rat :=
  if 0 < t then ((m : Rat) / (t : Rat)) * 100 else 0

/-- `overall_quality = (success_rate + consistency_score +
robustness_score) / 3` with both extra scores defined equal to
`success_rate`. -/
def overall_of (sr : Rat) : Rat := (sr + sr + sr) / 3

/-- The `IterRec` appended when iteration `iter + 1` evaluates prompt `p`:
under a deterministic gateway the quality re-evaluation in
`calculate_quality_score` returns the same counts as the evaluation `e`. -/
def step_record (e : Str → Nat × Nat × List FailedCase) (iter : Nat)
    (p : Str) : IterRec :=
  ⟨iter + 1, success_rate_of (e p).1 (e p).2.1,
    overall_of (success_rate_of (e p).1 (e p).2.1), p⟩

/-- The best-prompt update rule of the loop body:
`if overall_quality > best_quality_score: best := current`. -/
def bestStep (p : Str × Rat) (r : IterRec) : Str × Rat :=
  if r.quality_score > p.2 then (r.prompt, r.quality_score) else p

/-- The `while iteration < max_iterations` loop of `create_golden_prompt`:
evaluate `current`, append the history record, update the best prompt on
strictly greater quality, stop when `matches == total`, otherwise mutate —
globally (`collect_feedback` + `evolve_prompt`) when
`iteration % 3 == 0 and iteration > 2`, else locally (`optimize_prompt`
on `failed_cases[0]`), stopping defensively when there is no failing case.
The first argument of the recursion is the remaining fuel
(`max_iterations - iteration`), the second the number of completed
iterations. -/
def golden_loop (M : Mutators) (e : Str → Nat × Nat × List FailedCase) :
    Nat → Nat → LoopState → LoopState
  | 0, _, st => st
  | fuel + 1, iter, st =>
    if (e st.current).1 = (e st.current).2.1 then
      ⟨st.current,
        (bestStep (st.best, st.bestQ) (step_record e iter st.current)).1,
        (bestStep (st.best, st.bestQ) (step_record e iter st.current)).2,
        st.history ++ [step_record e iter st.current]⟩
    else if (iter + 1) % 3 = 0 ∧ iter + 1 > 2 then
      golden_loop M e fuel (iter + 1)
        ⟨M.evolveF st.current
            (M.feedbackF st.current (step_record e iter st.current).success_rate
              (e st.current).1 (e st.current).2.1 (e st.current).2.2)
            (step_record e iter st.current).success_rate (iter + 1),
          (bestStep (st.best, st.bestQ) (step_record e iter st.current)).1,
          (bestStep (st.best, st.bestQ) (step_record e iter st.current)).2,
          st.history ++ [step_record e iter st.current]⟩
    else
      match (e st.current).2.2 with
      | [] =>
        ⟨st.current,
          (bestStep (st.best, st.bestQ) (step_record e iter st.current)).1,
          (bestStep (st.best, st.bestQ) (step_record e iter st.current)).2,
          st.history ++ [step_record e iter st.current]⟩
      | f0 :: _ =>
        golden_loop M e fuel (iter + 1)
          ⟨M.patchF st.current f0.1 f0.2.2 f0.2.1,
            (bestStep (st.best, st.bestQ) (step_record e iter st.current)).1,
            (bestStep (st.best, st.bestQ) (step_record e iter st.current)).2,
            st.history ++ [step_record e iter st.current]⟩

/-- What `create_golden_prompt` returns: the best prompt and the recorded
history. -/
structure GoldenResult where
  golden : Str
  history : List IterRec
deriving DecidableEq

/-- `PromptOptimizer.create_golden_prompt`: empty dataset returns the empty
string with no history; otherwise bootstrap from the first test case
(`best := current`, `best_quality_score := 0`), run the loop, and return
`best_prompt` (not the final `current_prompt`). -/
def create_golden_prompt (M : Mutators) (e : Str → Nat × Nat × List FailedCase)
    (bootstrapF : Str → Str → Str → Str) (use_case : Str) (data : List Case)
    (max_iterations : Nat) : GoldenResult :=
  match data with
  | [] => ⟨[], []⟩
  | (i0, o0) :: _ =>
    ⟨(golden_loop M e max_iterations 0
        ⟨bootstrapF use_case i0 o0, bootstrapF use_case i0 o0, 0, []⟩).best,
      (golden_loop M e max_iterations 0
        ⟨bootstrapF use_case i0 o0, bootstrapF use_case i0 o0, 0, []⟩).history⟩

theorem golden_loop_fold (M : Mutators) (e : Str → Nat × Nat × List FailedCase) :
    ∀ fuel iter st, ∃ recs,
      (golden_loop M e fuel iter st).history = st.history ++ recs ∧
      ((golden_loop M e fuel iter st).best, (golden_loop M e fuel iter st).bestQ)
        = recs.foldl bestStep (st.best, st.bestQ)
  | 0, iter, st => ⟨[], by simp [golden_loop]⟩
  | fuel + 1, iter, st => by
    by_cases hmt : (e st.current).1 = (e st.current).2.1
    · refine ⟨[step_record e iter st.current], ?_, ?_⟩
      · simp [golden_loop, hmt]
      · simp [golden_loop, hmt, List.foldl_cons]
    · by_cases hfb : (iter + 1) % 3 = 0 ∧ iter + 1 > 2
      · obtain ⟨recs, h1, h2⟩ := golden_loop_fold M e fuel (iter + 1)
          ⟨M.evolveF st.current
              (M.feedbackF st.current (step_record e iter st.current).success_rate
                (e st.current).1 (e st.current).2.1 (e st.current).2.2)
              (step_record e iter st.current).success_rate (iter + 1),
            (bestStep (st.best, st.bestQ) (step_record e iter st.current)).1,
            (bestStep (st.best, st.bestQ) (step_record e iter st.current)).2,
            st.history ++ [step_record e iter st.current]⟩
        refine ⟨step_record e iter st.current :: recs, ?_, ?_⟩
        · simp only [golden_loop, if_neg hmt, if_pos hfb]
          rw [h1]
          simp [List.append_assoc]
        · simp only [golden_loop, if_neg hmt, if_pos hfb]
          rw [h2, List.foldl_cons]
      · rcases hml : (e st.current).2.2 with _ | ⟨f0, fs⟩
        · refine ⟨[step_record e iter st.current], ?_, ?_⟩
          · simp [golden_loop, hmt, hfb, hml]
          · simp [golden_loop, hmt, hfb, hml, List.foldl_cons]
        · obtain ⟨recs, h1, h2⟩ := golden_loop_fold M e fuel (iter + 1)
            ⟨M.patchF st.current f0.1 f0.2.2 f0.2.1,
              (bestStep (st.best, st.bestQ) (step_record e iter st.current)).1,
              (bestStep (st.best, st.bestQ) (step_record e iter st.current)).2,
              st.history ++ [step_record e iter st.current]⟩
          refine ⟨step_record e iter st.current :: recs, ?_, ?_⟩
          · simp only [golden_loop, if_neg hmt, if_neg hfb, hml]
            rw [h1]
            simp [List.append_assoc]
          · simp only [golden_loop, if_neg hmt, if_neg hfb, hml]
            rw [h2, List.foldl_cons]

theorem golden_loop_chain (M : Mutators) (e : Str → Nat × Nat × List FailedCase) :
    ∀ fuel iter st, ∃ recs,
      (golden_loop M e fuel iter st).history = st.history ++ recs ∧
      (∀ j r, recs[j]? = some r → r.iteration = iter + 1 + j) ∧
      (∀ r, recs[0]? = some r → r.prompt = st.current) ∧
      (∀ j r r', recs[j]? = some r → recs[j + 1]? = some r' →
        ¬(r.iteration % 3 = 0 ∧ r.iteration > 2) →
        ∃ f0 fs, (e r.prompt).2.2 = f0 :: fs ∧
          r'.prompt = M.patchF r.prompt f0.1 f0.2.2 f0.2.1)
  | 0, iter, st =>
    ⟨[], by simp [golden_loop], by simp, by simp, by simp⟩
  | fuel + 1, iter, st => by
    by_cases hmt : (e st.current).1 = (e st.current).2.1
    · refine ⟨[step_record e iter st.current], by simp [golden_loop, hmt], ?_, ?_, ?_⟩
      · intro j r hj
        match j with
        | 0 =>
          simp only [List.getElem?_cons_zero, Option.some.injEq] at hj
          rw [← hj]
          rfl
        | j + 1 => simp at hj
      · intro r h0
        simp only [List.getElem?_cons_zero, Option.some.injEq] at h0
        rw [← h0]
        rfl
      · intro j r r' hj hj1 hnfb
        match j with
        | 0 => simp at hj1
        | j + 1 => simp at hj
    · by_cases hfb : (iter + 1) % 3 = 0 ∧ iter + 1 > 2
      · obtain ⟨recs, h1, hnum, hhead, hlink⟩ := golden_loop_chain M e fuel (iter + 1)
          ⟨M.evolveF st.current
              (M.feedbackF st.current (step_record e iter st.current).success_rate
                (e st.current).1 (e st.current).2.1 (e st.current).2.2)
              (step_record e iter st.current).success_rate (iter + 1),
            (bestStep (st.best, st.bestQ) (step_record e iter st.current)).1,
            (bestStep (st.best, st.bestQ) (step_record e iter st.current)).2,
            st.history ++ [step_record e iter st.current]⟩
        refine ⟨step_record e iter st.current :: recs, ?_, ?_, ?_, ?_⟩
        · simp only [golden_loop, if_neg hmt, if_pos hfb]
          rw [h1]
          simp [List.append_assoc]
        · intro j r hj
          match j with
          | 0 =>
            simp only [List.getElem?_cons_zero, Option.some.injEq] at hj
            rw [← hj, step_record]
          | j + 1 =>
            simp only [List.getElem?_cons_succ] at hj
            have := hnum j r hj
            omega
        · intro r h0
          simp only [List.getElem?_cons_zero, Option.some.injEq] at h0
          rw [← h0]
          rfl
        · intro j r r' hj hj1 hnfb
          match j with
          | 0 =>
            simp only [List.getElem?_cons_zero, Option.some.injEq] at hj
            exfalso
            apply hnfb
            rw [← hj]
            exact hfb
          | j + 1 =>
            simp only [List.getElem?_cons_succ] at hj hj1
            exact hlink j r r' hj hj1 hnfb
      · rcases hml : (e st.current).2.2 with _ | ⟨f0, fs⟩
        · refine ⟨[step_record e iter st.current],
            by simp [golden_loop, hmt, hfb, hml], ?_, ?_, ?_⟩
          · intro j r hj
            match j with
            | 0 =>
              simp only [List.getElem?_cons_zero, Option.some.injEq] at hj
              rw [← hj]
              rfl
            | j + 1 => simp at hj
          · intro r h0
            simp only [List.getElem?_cons_zero, Option.some.injEq] at h0
            rw [← h0]
            rfl
          · intro j r r' hj hj1 hnfb
            match j with
            | 0 => simp at hj1
            | j + 1 => simp at hj
        · obtain ⟨recs, h1, hnum, hhead, hlink⟩ := golden_loop_chain M e fuel (iter + 1)
            ⟨M.patchF st.current f0.1 f0.2.2 f0.2.1,
              (bestStep (st.best, st.bestQ) (step_record e iter st.current)).1,
              (bestStep (st.best, st.bestQ) (step_record e iter st.current)).2,
              st.history ++ [step_record e iter st.current]⟩
          refine ⟨step_record e iter st.current :: recs, ?_, ?_, ?_, ?_⟩
          · simp only [golden_loop, if_neg hmt, if_neg hfb, hml]
            rw [h1]
            simp [List.append_assoc]
          · intro j r hj
            match j with
            | 0 =>
              simp only [List.getElem?_cons_zero, Option.some.injEq] at hj
              rw [← hj, step_record]
            | j + 1 =>
              simp only [List.getElem?_cons_succ] at hj
              have := hnum j r hj
              omega
          · intro r h0
            simp only [List.getElem?_cons_zero, Option.some.injEq] at h0
            rw [← h0]
            rfl
          · intro j r r' hj hj1 hnfb
            match j with
            | 0 =>
              simp only [List.getElem?_cons_zero, List.getElem?_cons_succ,
                Option.some.injEq] at hj hj1
              refine ⟨f0, fs, ?_, ?_⟩
              · rw [← hj]
                exact hml
              · rw [← hj]
                exact (hhead r' hj1).symm ▸ rfl
            | j + 1 =>
              simp only [List.getElem?_cons_succ] at hj hj1
              exact hlink j r r' hj hj1 hnfb

theorem success_rate_eq_100 {m t : Nat} (hmt : m = t) (ht : 0 < t) :
    success_rate_of m t = 100 := by
  subst hmt
  unfold success_rate_of
  rw [if_pos ht, div_self (by positivity), one_mul]

theorem success_rate_lt_100 {m t : Nat} (hlt : m < t) (ht : 0 < t) :
    success_rate_of m t < 100 := by
  unfold success_rate_of
  rw [if_pos ht]
  have h1 : (m : Rat) / (t : Rat) < 1 := by
    rw [div_lt_one (by positivity)]
    exact_mod_cast hlt
  calc (m : Rat) / (t : Rat) * 100 < 1 * 100 := by
        apply mul_lt_mul_of_pos_right h1
        norm_num
    _ = 100 := one_mul 100

theorem overall_of_eq (sr : Rat) : overall_of sr = sr := by
  unfold overall_of
  ring

set_option maxHeartbeats 1000000 in
theorem golden_loop_perfect (M : Mutators) (e : Str → Nat × Nat × List FailedCase)
    (hM : ∀ p, (e p).1 ≤ (e p).2.1) (hT : ∀ p, 0 < (e p).2.1) :
    ∀ fuel iter st, st.bestQ < 100 →
      ∀ r, r ∈ (golden_loop M e fuel iter st).history → r ∉ st.history →
        (e r.prompt).1 = (e r.prompt).2.1 →
        (golden_loop M e fuel iter st).history.getLast? = some r ∧
        (golden_loop M e fuel iter st).best = r.prompt
  | 0, iter, st => by
    intro hb r hr hnr hconv
    exact absurd hr hnr
  | fuel + 1, iter, st => by
    intro hb r hr hnr hconv
    by_cases hmt : (e st.current).1 = (e st.current).2.1
    · simp only [golden_loop, if_pos hmt] at hr ⊢
      have hrrec : r = step_record e iter st.current := by
        rcases List.mem_append.mp hr with h | h
        · exact absurd h hnr
        · simpa using h
      have hq : (step_record e iter st.current).quality_score = 100 := by
        simp only [step_record]
        rw [success_rate_eq_100 hmt (hT st.current), overall_of_eq]
      constructor
      · rw [List.getLast?_concat, hrrec]
      · rw [hrrec]
        simp only [bestStep, hq]
        rw [if_pos (by exact hb)]
    · have hlt : (e st.current).1 < (e st.current).2.1 :=
        lt_of_le_of_ne (hM st.current) hmt
      have hq : (step_record e iter st.current).quality_score < 100 := by
        simp only [step_record]
        rw [overall_of_eq]
        exact success_rate_lt_100 hlt (hT st.current)
      have hb2 : (bestStep (st.best, st.bestQ) (step_record e iter st.current)).2 < 100 := by
        unfold bestStep
        split
        · exact hq
        · exact hb
      have hrne : r ≠ step_record e iter st.current := by
        intro hre
        apply hmt
        have : r.prompt = st.current := by
          rw [hre]
          rfl
        rw [← this]
        exact hconv
      by_cases hfb : (iter + 1) % 3 = 0 ∧ iter + 1 > 2
      · simp only [golden_loop, if_neg hmt, if_pos hfb] at hr ⊢
        refine golden_loop_perfect M e hM hT fuel (iter + 1) _ hb2 r hr ?_ hconv
        intro hmem
        simp only [List.mem_append, List.mem_singleton] at hmem
        rcases hmem with h | h
        · exact hnr h
        · exact hrne h
      · rcases hml : (e st.current).2.2 with _ | ⟨f0, fs⟩
        · simp only [golden_loop, if_neg hmt, if_neg hfb, hml] at hr ⊢
          have hrrec : r = step_record e iter st.current := by
            rcases List.mem_append.mp hr with h | h
            · exact absurd h hnr
            · simpa using h
          exact absurd hrrec hrne
        · simp only [golden_loop, if_neg hmt, if_neg hfb, hml] at hr ⊢
          refine golden_loop_perfect M e hM hT fuel (iter + 1) _ hb2 r hr ?_ hconv
          intro hmem
          simp only [List.mem_append, List.mem_singleton] at hmem
          rcases hmem with h | h
          · exact hnr h
          · exact hrne h

/-- Claim C2: for every non-empty dataset and deterministic gateway — the
evaluation oracle `e` is a function with `matches ≤ total` and
`total > 0` for every prompt, which the embedded evaluator guarantees on a
non-empty dataset — if any recorded iteration achieves `matches == total`,
the loop terminates at that iteration (its record is the last one) and the
returned prompt equals the prompt evaluated in that iteration (best was
updated to it by the strict-greater rule). -/
theorem converged_iteration_selected (M : Mutators)
    (e : Str → Nat × Nat × List FailedCase) (bootstrapF : Str → Str → Str → Str)
    (use_case i0 o0 : Str) (rest : List Case) (maxIter : Nat)
    (hM : ∀ p, (e p).1 ≤ (e p).2.1) (hT : ∀ p, 0 < (e p).2.1) :
    ∀ r ∈ (create_golden_prompt M e bootstrapF use_case ((i0, o0) :: rest) maxIter).history,
      (e r.prompt).1 = (e r.prompt).2.1 →
      (create_golden_prompt M e bootstrapF use_case ((i0, o0) :: rest) maxIter).history.getLast?
          = some r ∧
      (create_golden_prompt M e bootstrapF use_case ((i0, o0) :: rest) maxIter).golden
          = r.prompt := by
  intro r hr hconv
  simp only [create_golden_prompt] at hr ⊢
  exact golden_loop_perfect M e hM hT maxIter 0
    ⟨bootstrapF use_case i0 o0, bootstrapF use_case i0 o0, 0, []⟩ (by norm_num)
    r hr (List.not_mem_nil r) hconv

/-- Trivial mutators: every mutation returns the current prompt. -/
def mutNoop : Mutators := ⟨fun c _ _ _ => c, fun c _ _ _ _ => c, fun c _ _ _ => c⟩

/-- A bootstrap oracle producing the prompt `P`. -/
def bootP : Str → Str → Str → Str := fun _ _ _ => "P".toList

/-- A deterministic evaluation oracle: every prompt matches 1 of 1 cases. -/
def eOne : Str → Nat × Nat × List FailedCase := fun _ => (1, 1, [])

set_option maxRecDepth 4000 in
set_option maxHeartbeats 2000000 in
/-- Witness for C2: an immediately converging run returns the bootstrapped
prompt, which is the prompt of the single (last) history record. -/
theorem converged_iteration_selected_witness :
    (create_golden_prompt mutNoop eOne bootP "u".toList
        [("i".toList, "o".toList)] 15).history.getLast?
      = some ⟨1, 100, 100, "P".toList⟩ ∧
    (create_golden_prompt mutNoop eOne bootP "u".toList
        [("i".toList, "o".toList)] 15).golden
      = (⟨1, 100, 100, "P".toList⟩ : IterRec).prompt :=
  converged_iteration_selected mutNoop eOne bootP "u".toList "i".toList "o".toList
    [] 15 (fun _ => le_refl 1) (fun _ => Nat.one_pos)
    ⟨1, 100, 100, "P".toList⟩
    (by norm_num [create_golden_prompt, golden_loop, step_record, eOne, bootP,
      mutNoop, success_rate_of, overall_of, bestStep])
    rfl

/-- The (best_prompt, best_quality_score) pair after the first `k`
iterations of a run with history `hist` that bootstrapped prompt `p0`:
fold the strict-greater update over the first `k` records, starting from
`(p0, 0)`. -/
def bestAfter (p0 : Str) (hist : List IterRec) (k : Nat) : Str × Rat :=
  (hist.take k).foldl bestStep (p0, 0)

theorem bestAfter_succ (p0 : Str) (hist : List IterRec) (k : Nat) :
    bestAfter p0 hist (k + 1) =
      match hist[k]? with
      | some r => bestStep (bestAfter p0 hist k) r
      | none => bestAfter p0 hist k := by
  rcases hk : hist[k]? with _ | r
  · have hlen : hist.length ≤ k := List.getElem?_eq_none_iff.mp hk
    unfold bestAfter
    rw [List.take_of_length_le hlen,
      List.take_of_length_le (le_trans hlen (Nat.le_succ k))]
  · unfold bestAfter
    rw [List.take_succ, hk]
    simp [List.foldl_append]

theorem bestStep_snd_le (p : Str × Rat) (r : IterRec) : p.2 ≤ (bestStep p r).2 := by
  unfold bestStep
  split
  · exact le_of_lt (by assumption)
  · exact le_refl _

/-- Claim C3: across one run the tracked best quality is monotonically
nondecreasing even when the current quality drops; the best prompt is
replaced exactly when the new record's quality is strictly greater than
the tracked best (so the earliest iteration wins ties); and the returned
prompt is the result of folding this strict update over the full history —
the best candidate observed, not necessarily the last current prompt. -/
theorem best_tracking (M : Mutators) (e : Str → Nat × Nat × List FailedCase)
    (bootstrapF : Str → Str → Str → Str) (use_case i0 o0 : Str)
    (rest : List Case) (maxIter : Nat) :
    (∀ k, (bestAfter (bootstrapF use_case i0 o0)
        (create_golden_prompt M e bootstrapF use_case ((i0, o0) :: rest) maxIter).history k).2
      ≤ (bestAfter (bootstrapF use_case i0 o0)
        (create_golden_prompt M e bootstrapF use_case ((i0, o0) :: rest) maxIter).history (k + 1)).2) ∧
    (∀ k r, (create_golden_prompt M e bootstrapF use_case ((i0, o0) :: rest) maxIter).history[k]?
        = some r →
      (r.quality_score > (bestAfter (bootstrapF use_case i0 o0)
          (create_golden_prompt M e bootstrapF use_case ((i0, o0) :: rest) maxIter).history k).2 →
        bestAfter (bootstrapF use_case i0 o0)
          (create_golden_prompt M e bootstrapF use_case ((i0, o0) :: rest) maxIter).history (k + 1)
          = (r.prompt, r.quality_score)) ∧
      (¬ r.quality_score > (bestAfter (bootstrapF use_case i0 o0)
          (create_golden_prompt M e bootstrapF use_case ((i0, o0) :: rest) maxIter).history k).2 →
        bestAfter (bootstrapF use_case i0 o0)
          (create_golden_prompt M e bootstrapF use_case ((i0, o0) :: rest) maxIter).history (k + 1)
          = bestAfter (bootstrapF use_case i0 o0)
            (create_golden_prompt M e bootstrapF use_case ((i0, o0) :: rest) maxIter).history k)) ∧
    (create_golden_prompt M e bootstrapF use_case ((i0, o0) :: rest) maxIter).golden
      = (bestAfter (bootstrapF use_case i0 o0)
          (create_golden_prompt M e bootstrapF use_case ((i0, o0) :: rest) maxIter).history
          (create_golden_prompt M e bootstrapF use_case ((i0, o0) :: rest) maxIter).history.length).1 := by
  refine ⟨fun k => ?_, fun k r hk => ?_, ?_⟩
  · rw [bestAfter_succ]
    rcases hk : (create_golden_prompt M e bootstrapF use_case ((i0, o0) :: rest) maxIter).history[k]? with _ | r
    · exact le_refl _
    · exact bestStep_snd_le _ r
  · constructor
    · intro hgt
      simp only [bestAfter_succ, hk]
      unfold bestStep
      rw [if_pos hgt]
    · intro hle
      simp only [bestAfter_succ, hk]
      unfold bestStep
      rw [if_neg hle]
  · obtain ⟨recs, h1, h2⟩ := golden_loop_fold M e maxIter 0
      ⟨bootstrapF use_case i0 o0, bootstrapF use_case i0 o0, 0, []⟩
    simp only [create_golden_prompt]
    simp only [List.nil_append] at h1
    unfold bestAfter
    rw [h1, List.take_length, ← h1, h1]
    rw [Prod.ext_iff] at h2
    exact h2.1

/-- Mutators whose local patch always produces the prompt `QQ`. -/
def mutStep : Mutators :=
  ⟨fun _ _ _ _ => "QQ".toList, fun c _ _ _ _ => c, fun c _ _ _ => c⟩

/-- A deterministic oracle: one-character prompts (the bootstrapped `P`)
fail their single case with failing case `(i, o, w)`; longer prompts (the
patched `QQ`) pass. -/
def eTwo : Str → Nat × Nat × List FailedCase :=
  fun p => if p.length = 1 then (0, 1, [("i".toList, "o".toList, "w".toList)])
    else (1, 1, [])

set_option maxRecDepth 10000 in
set_option maxHeartbeats 4000000 in
/-- Witness for C3: in a two-iteration run (quality 0 then 100), the best
pair after both iterations is the second prompt with quality 100, and the
returned prompt equals the fold over the history. -/
theorem best_tracking_witness :
    bestAfter "P".toList (create_golden_prompt mutStep eTwo bootP "u".toList
        [("i".toList, "o".toList)] 15).history 2 = ("QQ".toList, 100) ∧
    (create_golden_prompt mutStep eTwo bootP "u".toList
        [("i".toList, "o".toList)] 15).golden
      = (bestAfter "P".toList (create_golden_prompt mutStep eTwo bootP "u".toList
          [("i".toList, "o".toList)] 15).history
          (create_golden_prompt mutStep eTwo bootP "u".toList
            [("i".toList, "o".toList)] 15).history.length).1 := by
  have h := best_tracking mutStep eTwo bootP "u".toList "i".toList "o".toList [] 15
  refine ⟨?_, h.2.2⟩
  exact (h.2.1 1 ⟨2, 100, 100, "QQ".toList⟩
    (by norm_num [create_golden_prompt, golden_loop, step_record, eTwo, bootP,
      mutStep, success_rate_of, overall_of, bestStep])).1
    (by norm_num [create_golden_prompt, golden_loop, step_record, eTwo, bootP,
      mutStep, success_rate_of, overall_of, bestStep, bestAfter])

/-- Claim C8: the history records are numbered consecutively from 1, and on
every non-converged iteration that is not a feedback iteration (not
`iteration % 3 == 0 and iteration > 2`) and that has a successor, the next
prompt was produced by the patch operation applied to the data of the first
element (index 0) of that iteration's failing-case list — never a later
element — whatever the ordering of the failing cases. -/
theorem patch_uses_first_failure (M : Mutators)
    (e : Str → Nat × Nat × List FailedCase) (bootstrapF : Str → Str → Str → Str)
    (use_case i0 o0 : Str) (rest : List Case) (maxIter : Nat) :
    (∀ k r, (create_golden_prompt M e bootstrapF use_case ((i0, o0) :: rest) maxIter).history[k]?
        = some r → r.iteration = k + 1) ∧
    (∀ k r r', (create_golden_prompt M e bootstrapF use_case ((i0, o0) :: rest) maxIter).history[k]?
        = some r →
      (create_golden_prompt M e bootstrapF use_case ((i0, o0) :: rest) maxIter).history[k + 1]?
        = some r' →
      ¬(r.iteration % 3 = 0 ∧ r.iteration > 2) →
      ∃ f0 fs, (e r.prompt).2.2 = f0 :: fs ∧
        r'.prompt = M.patchF r.prompt f0.1 f0.2.2 f0.2.1) := by
  obtain ⟨recs, h1, hnum, hhead, hlink⟩ := golden_loop_chain M e maxIter 0
    ⟨bootstrapF use_case i0 o0, bootstrapF use_case i0 o0, 0, []⟩
  simp only [List.nil_append] at h1
  simp only [create_golden_prompt, h1]
  constructor
  · intro k r hk
    have := hnum k r hk
    omega
  · intro k r r' hk hk1 hnfb
    exact hlink k r r' hk hk1 hnfb

set_option maxRecDepth 10000 in
set_option maxHeartbeats 4000000 in
/-- Witness for C8: in the concrete two-iteration run, the second prompt is
the patch of the first prompt with the first (only) failing case. -/
theorem patch_uses_first_failure_witness :
    ∃ f0 fs, (eTwo ((⟨1, 0, 0, "P".toList⟩ : IterRec).prompt)).2.2 = f0 :: fs ∧
      (⟨2, 100, 100, "QQ".toList⟩ : IterRec).prompt
        = mutStep.patchF (⟨1, 0, 0, "P".toList⟩ : IterRec).prompt f0.1 f0.2.2 f0.2.1 :=
  (patch_uses_first_failure mutStep eTwo bootP "u".toList "i".toList "o".toList [] 15).2
    0 ⟨1, 0, 0, "P".toList⟩ ⟨2, 100, 100, "QQ".toList⟩
    (by norm_num [create_golden_prompt, golden_loop, step_record, eTwo, bootP,
      mutStep, success_rate_of, overall_of, bestStep])
    (by norm_num [create_golden_prompt, golden_loop, step_record, eTwo, bootP,
      mutStep, success_rate_of, overall_of, bestStep])
    (by decide)
